import Mathlib

/-!
Shallow embedding of the p2p-discovery crawler core:
the per-peer known-hash caches, the Peer handshake state, the PeerSet
registry (src/ethpeer/peer.go) and the chain-state aggregator merge loop
(src/main.go).  Hashes (common.Hash) are modelled as natural numbers,
arbitrary-precision integers (math/big Int pointers) as Option Int where
the nil pointer matters, and the fatih set.v0 Set as a duplicate-free
list whose Pop removes the first element (the library removes an
arbitrary one; nothing proved below depends on which element is popped).
-/

namespace P2P

abbrev Hash := Nat

/-! ### fatih set.v0 operations as used by peer.go -/

/-- set.Add of a single item: a no-op when the item is already a member. -/
def SetAdd (s : List Hash) (h : Hash) : List Hash :=
  if h ∈ s then s else h :: s

/-- set.Pop: removes one (arbitrary) member; modelled as the first. -/
def SetPop (s : List Hash) : List Hash := s.tail

/-- set.Size. -/
def SetSize (s : List Hash) : Nat := s.length

/-- set.Has for a single item. -/
def SetHas (s : List Hash) (h : Hash) : Bool := decide (h ∈ s)

/-- The eviction loop "for Size() >= cap { Pop() }" from MarkBlock and
MarkTransaction, with explicit fuel; each iteration pops one member, so
the initial size is always enough fuel for the loop to reach its exit
condition (the capacities used are positive). -/
def evictLoop (cap : Nat) : Nat → List Hash → List Hash
  | 0, s => s
  | fuel + 1, s => if cap ≤ s.length then evictLoop cap fuel s.tail else s

/-- The Go eviction loop run to completion on a set. -/
def evictWhile (cap : Nat) (s : List Hash) : List Hash :=
  evictLoop cap s.length s

/-- maxKnownTxs from peer.go. -/
def maxKnownTxs : Nat := 32768

/-- maxKnownBlocks from peer.go. -/
def maxKnownBlocks : Nat := 1024

/-! ### Peer state (struct peer of peer.go) -/

/-- The mutable state of one peer: identity, negotiated version, genesis,
head hash, total difficulty (a big.Int pointer, hence Option), and the
two known-hash caches.  The p2p.Peer handle and the message channel are
external collaborators and carry no state relevant to the claims. -/
structure Peer where
  id : Nat
  version : Nat
  genesis : Hash
  head : Hash
  td : Option Int
  knownTxs : List Hash
  knownBlocks : List Hash
deriving DecidableEq, Repr

/-- NewPeer: the id is formatted from the p2p identity, the caches start
empty, head and genesis start as the zero hash, and td is initialized to
big.NewInt(0) — a non-nil pointer to zero. -/
def NewPeer (version : Nat) (id : Nat) : Peer :=
  { id := id
    version := version
    genesis := 0
    head := 0
    td := some 0
    knownTxs := []
    knownBlocks := [] }

/-- Peer.Head: returns a copy of the head hash, and nil difficulty
exactly when the td field is the nil pointer. -/
def Peer.Head (p : Peer) : Hash × Option Int := (p.head, p.td)

/-- Peer.SetHead: copies the hash and writes the difficulty through the
existing big.Int with td.Set, which dereferences td — a nil td panics
(modelled as none). -/
def Peer.SetHead (p : Peer) (hash : Hash) (td : Int) : Option Peer :=
  match p.td with
  | none => none
  | some _ => some { p with head := hash, td := some td }

/-- Peer.SetGenesis. -/
def Peer.SetGenesis (p : Peer) (g : Hash) : Peer := { p with genesis := g }

/-- Peer.Genesis. -/
def Peer.GenesisOf (p : Peer) : Hash := p.genesis

/-- MarkBlock: pop known block hashes while at or above capacity, then
add the new hash. -/
def MarkBlock (p : Peer) (h : Hash) : Peer :=
  { p with knownBlocks := SetAdd (evictWhile maxKnownBlocks p.knownBlocks) h }

/-- MarkTransaction: pop known transaction hashes while at or above
capacity, then add the new hash. -/
def MarkTransaction (p : Peer) (h : Hash) : Peer :=
  { p with knownTxs := SetAdd (evictWhile maxKnownTxs p.knownTxs) h }

/-- TxMsg message code. -/
def TxMsg : Nat := 0x02

/-- NewBlockHashesMsg message code. -/
def NewBlockHashesMsg : Nat := 0x01

/-- NewBlockMsg message code. -/
def NewBlockMsg : Nat := 0x07

/-- StatusMsg message code. -/
def StatusMsg : Nat := 0x00

/-- SendTransactions: adds every transaction hash to knownTxs with no
eviction, then emits the transactions message (returned as code plus the
hashes of the payload). -/
def SendTransactions (p : Peer) (txs : List Hash) : Peer × (Nat × List Hash) :=
  ({ p with knownTxs := txs.foldl SetAdd p.knownTxs }, (TxMsg, txs))

/-- The knownBlocks marking performed at the top of SendNewBlockHashes:
every announced hash is added with no eviction. -/
def markBlockHashes (p : Peer) (hashes : List Hash) : Peer :=
  { p with knownBlocks := hashes.foldl SetAdd p.knownBlocks }

/-- SendNewBlock: adds the block hash to knownBlocks with no eviction,
then emits the new-block message (returned as code plus hash and td). -/
def SendNewBlock (p : Peer) (blockHash : Hash) (td : Int) : Peer × (Nat × Hash × Int) :=
  ({ p with knownBlocks := SetAdd p.knownBlocks blockHash }, (NewBlockMsg, blockHash, td))

/-! ### The request-building loop of SendNewBlockHashes (claim C9) -/

/-- The loop "for i := 0; i < len(hashes); i++" of SendNewBlockHashes,
building request entries left to right; indexing numbers out of range is
a runtime panic, modelled as none. -/
def buildLoop (hashes : List Hash) (numbers : List Nat) : Nat → Option (List (Hash × Nat))
  | 0 => some []
  | i + 1 => do
      let pre ← buildLoop hashes numbers i
      let h ← hashes[i]?
      let n ← numbers[i]?
      pure (pre ++ [(h, n)])

/-- The request of SendNewBlockHashes: one record per announced hash. -/
def buildRequest (hashes : List Hash) (numbers : List Nat) : Option (List (Hash × Nat)) :=
  buildLoop hashes numbers hashes.length

/-- SendNewBlockHashes: marks every hash known, then builds the
hash-and-number announcement records (panicking if numbers is shorter
than hashes) and emits them. -/
def SendNewBlockHashes (p : Peer) (hashes : List Hash) (numbers : List Nat) :
    Option (Peer × (Nat × List (Hash × Nat))) :=
  (buildRequest hashes numbers).map
    (fun req => (markBlockHashes p hashes, (NewBlockHashesMsg, req)))

/-! ### Sequences of cache-recording peer operations (claim C1) -/

/-- The operations of peer.go that record hashes into the known-hash
caches. -/
inductive PeerOp where
  | markBlock (h : Hash)
  | markTransaction (h : Hash)
  | sendTransactions (txs : List Hash)
  | sendNewBlockHashes (hashes : List Hash) (numbers : List Nat)
  | sendNewBlock (h : Hash) (td : Int)
deriving DecidableEq, Repr

/-- Effect of one operation on the peer state.  For SendNewBlockHashes
the cache insertions precede the request-building loop, so they are
applied irrespective of a later indexing panic. -/
def applyPeerOp (p : Peer) : PeerOp → Peer
  | .markBlock h => MarkBlock p h
  | .markTransaction h => MarkTransaction p h
  | .sendTransactions txs => (SendTransactions p txs).1
  | .sendNewBlockHashes hashes _ => markBlockHashes p hashes
  | .sendNewBlock h td => (SendNewBlock p h td).1

/-- Effect of a sequence of operations, first to last. -/
def applyPeerOps (p : Peer) (ops : List PeerOp) : Peer :=
  ops.foldl applyPeerOp p

/-- The operations whose insertions run the eviction loop first. -/
def isMarkOp : PeerOp → Bool
  | .markBlock _ => true
  | .markTransaction _ => true
  | _ => false

/-! ### Status messages and readStatus (claims C3 and C4) -/

/-- statusData, the handshake packet. -/
structure StatusData where
  protocolVersion : Nat
  networkId : Nat
  td : Int
  currentBlock : Hash
  genesisBlock : Hash
deriving DecidableEq, Repr

/-- ProtocolMaxMsgSize from peer.go: 10 * 1024 * 1024 bytes. -/
def ProtocolMaxMsgSize : Nat := 10 * 1024 * 1024

/-- The numeric error codes of peer.go wrapped by errResp. -/
inductive ErrCode where
  | ErrMsgTooLarge
  | ErrDecode
  | ErrInvalidMsgCode
  | ErrProtocolVersionMismatch
  | ErrNetworkIdMismatch
  | ErrGenesisBlockMismatch
  | ErrNoStatusMsg
  | ErrExtraStatusMsg
  | ErrSuspendedPeer
deriving DecidableEq, Repr

/-- An inbound message as seen by readStatus: its code, its declared
size, and the result of decoding its payload into statusData (none when
the decode fails). -/
structure Msg where
  code : Nat
  size : Nat
  payload : Option StatusData
deriving DecidableEq, Repr

/-- readStatus applied to a message that was successfully read from the
wire: the validation chain of peer.go, first failure wins; none is the
nil error of a fully valid status. -/
def readStatus (version : Nat) (network : Nat) (genesis : Hash) (msg : Msg) :
    Option ErrCode :=
  if msg.code ≠ StatusMsg then some .ErrNoStatusMsg
  else if ProtocolMaxMsgSize < msg.size then some .ErrMsgTooLarge
  else
    match msg.payload with
    | none => some .ErrDecode
    | some status =>
      if status.genesisBlock ≠ genesis then some .ErrGenesisBlockMismatch
      else if status.networkId ≠ network then some .ErrNetworkIdMismatch
      else if status.protocolVersion ≠ version then some .ErrProtocolVersionMismatch
      else none

/-! ### Handshake (claim C4) -/

/-- Errors a Handshake invocation can return: a failed outbound status
send, a failed inbound read, a status failing validation (wrapping the
readStatus code), or the 5 second timeout (p2p.DiscReadTimeout). -/
inductive HsError where
  | sendFailed
  | readFailed
  | statusErr (e : ErrCode)
  | discReadTimeout
deriving DecidableEq, Repr

/-- The external events a Handshake invocation observes: whether the
outbound p2p.Send succeeded, whether the handshake timer fired before
both goroutines reported, and what (if anything) ReadMsg delivered. -/
structure HsInput where
  sendOk : Bool
  timedOut : Bool
  read : Option Msg
deriving DecidableEq, Repr

/-- Peer.Handshake: sends the local status (network, td, head, genesis)
and reads plus validates the remote status; on any error or on timeout
it returns that error with the peer state untouched; only when both
goroutines succeed does it assign p.td and p.head from the received
status.  The interleaving of the two goroutines does not affect which
component of the state is returned, so the model fixes an order. -/
def Handshake (p : Peer) (network : Nat) (td : Int) (head : Hash) (genesis : Hash)
    (inp : HsInput) : Option HsError × Peer :=
  if inp.timedOut then (some .discReadTimeout, p)
  else if inp.sendOk = false then (some .sendFailed, p)
  else
    match inp.read with
    | none => (some .readFailed, p)
    | some msg =>
      match readStatus p.version network genesis msg with
      | some e => (some (.statusErr e), p)
      | none =>
        match msg.payload with
        | some st => (none, { p with td := some st.td, head := st.currentBlock })
        | none => (some .readFailed, p)

/-! ### PeerSet (claims C5, C7, C10) -/

/-- The registry errors of peer.go. -/
inductive RegError where
  | errClosed
  | errAlreadyRegistered
  | errNotRegistered
deriving DecidableEq, Repr

/-- The peer registry: the Go map is modelled as an association list in
insertion order (Go map iteration order is unspecified; the list order
stands for whatever order an enumeration observes), plus the closed
flag. -/
structure PeerSet where
  peers : List (Nat × Peer)
  closed : Bool
deriving DecidableEq, Repr

/-- NewPeerSet: empty map, closed false. -/
def NewPeerSet : PeerSet := { peers := [], closed := false }

/-- PeerSet.Register: errors on a closed set, then on a duplicate
identity, otherwise inserts; the pre-state is returned alongside the
error so that failed calls visibly leave the contents unchanged. -/
def PeerSet.Register (ps : PeerSet) (p : Peer) : Option RegError × PeerSet :=
  if ps.closed then (some .errClosed, ps)
  else if (ps.peers.lookup p.id).isSome then (some .errAlreadyRegistered, ps)
  else (none, { ps with peers := ps.peers ++ [(p.id, p)] })

/-- PeerSet.Unregister: errors on an absent identity, otherwise deletes
the entry. -/
def PeerSet.Unregister (ps : PeerSet) (id : Nat) : Option RegError × PeerSet :=
  if (ps.peers.lookup id).isSome then
    (none, { ps with peers := ps.peers.filter (fun e => e.1 != id) })
  else (some .errNotRegistered, ps)

/-- PeerSet.Peer: map lookup, nil (none) when absent. -/
def PeerSet.PeerById (ps : PeerSet) (id : Nat) : Option Peer :=
  ps.peers.lookup id

/-- PeerSet.Len. -/
def PeerSet.Len (ps : PeerSet) : Nat := ps.peers.length

/-- PeerSet.AllPeer: returns the map itself. -/
def PeerSet.AllPeer (ps : PeerSet) : List (Nat × Peer) := ps.peers

/-- PeersWithoutBlock: the registered peers whose knownBlocks cache does
not contain the hash. -/
def PeerSet.PeersWithoutBlock (ps : PeerSet) (h : Hash) : List Peer :=
  (ps.peers.map Prod.snd).filter (fun p => !SetHas p.knownBlocks h)

/-- PeersWithoutTx: the registered peers whose knownTxs cache does not
contain the hash. -/
def PeerSet.PeersWithoutTx (ps : PeerSet) (h : Hash) : List Peer :=
  (ps.peers.map Prod.snd).filter (fun p => !SetHas p.knownTxs h)

/-- One iteration of the BestPeer scan, carrying the bestPeer and bestTd
variables.  A nil difficulty from Head skips the peer; a nil bestTd is
first replaced by the difficulty at hand; the peer is taken when either
no best peer exists yet or its difficulty is strictly greater.  (Entries
of the model registry are always non-nil, so the nil-peer guard of the
loop has no counterpart.) -/
def bestStep (acc : Option Peer × Option Int) (p : Peer) : Option Peer × Option Int :=
  match (Peer.Head p).2 with
  | none => acc
  | some td =>
    let bestTd := acc.2.getD td
    if acc.1.isNone || bestTd < td then (some p, some td) else (acc.1, some bestTd)

/-- PeerSet.BestPeer: the scan of all registered peers. -/
def PeerSet.BestPeer (ps : PeerSet) : Option Peer :=
  ((ps.peers.map Prod.snd).foldl bestStep (none, none)).1

/-! ### Reachable registry states (claim C10) -/

/-- The exported PeerSet operations.  The lookup and scan operations
read but never assign any field; they are carried so that an operation
sequence can mention them. -/
inductive SetOp where
  | register (p : Peer)
  | unregister (id : Nat)
  | peerById (id : Nat)
  | len
  | allPeer
  | peersWithoutBlock (h : Hash)
  | peersWithoutTx (h : Hash)
  | bestPeer
deriving DecidableEq, Repr

/-- State effect of one exported operation. -/
def applySetOp (ps : PeerSet) : SetOp → PeerSet
  | .register p => (ps.Register p).2
  | .unregister id => (ps.Unregister id).2
  | .peerById _ => ps
  | .len => ps
  | .allPeer => ps
  | .peersWithoutBlock _ => ps
  | .peersWithoutTx _ => ps
  | .bestPeer => ps

/-- State effect of a sequence of exported operations. -/
def applySetOps (ps : PeerSet) (ops : List SetOp) : PeerSet :=
  ops.foldl applySetOp ps

/-! ### The aggregator merge loop of main.go (claims C2 and C8) -/

/-- The configured genesis hash (var genesis of main.go). -/
def genesisHash : Hash := 0xd4e56740f876aef8c010b86a40d5f56745a118d0906a34e69aec8c0db1cb8fa3

/-- var startBlock of main.go. -/
def startBlock : Hash := 0xdc2d938e4cd0a149681e9e04352953ef5ab399d59bcd5b0357f6c0797470a524

/-- var startTD of main.go. -/
def startTD : Int := 2303762395359969

/-- var gversion of main.go. -/
def gversion : Nat := 63

/-- var gnetworkid of main.go. -/
def gnetworkid : Nat := 888888

/-- The bestState the proxy is constructed with in test2. -/
def initBestState : StatusData :=
  { protocolVersion := gversion
    networkId := gnetworkid
    td := startTD
    currentBlock := startBlock
    genesisBlock := genesisHash }

/-- The bestStateChan case of the merge loop: the observation replaces
the stored state only when its total difficulty compares strictly
greater and its genesis hash equals the configured genesis. -/
def mergeBestState (cur : StatusData) (obs : StatusData) : StatusData :=
  if cur.td < obs.td ∧ obs.genesisBlock = genesisHash then obs else cur

/-- big.Int Cmp on two pointers: two nil pointers are the same pointer
value and compare equal without dereferencing; any other combination
involving nil dereferences a nil pointer and panics (none). -/
def cmpBig : Option Int → Option Int → Option Ordering
  | none, none => some .eq
  | some a, some b => some (compare a b)
  | _, _ => none

/-- A block header reduced to the field the merge loop touches: Number,
a big.Int pointer that is nil in a zero-valued header. -/
structure Header where
  number : Option Int
deriving DecidableEq, Repr

/-- The bestHeader the proxy starts with: test2 never assigns the field,
leaving the zero Header whose Number is the nil pointer. -/
def initBestHeader : Header := { number := none }

/-- One header of a batch processed by the bestHeaderChan case: replace
the retained header when Cmp answers strictly greater; a nil Number on
either side of Cmp (other than both) panics. -/
def mergeHeaderStep (cur : Header) (h : Header) : Option Header :=
  match cmpBig h.number cur.number with
  | none => none
  | some .gt => some h
  | some _ => some cur

/-- The bestHeaderChan case of the merge loop over a whole batch; none
is a runtime panic of the merge goroutine. -/
def mergeHeaderBatch (cur : Header) (batch : List Header) : Option Header :=
  batch.foldlM mergeHeaderStep cur

/-! ## Claim C2: the chain-state merge rule and difficulty monotonicity -/

/-- Claim C2: a chain-state observation replaces the stored best state
exactly when its total difficulty is strictly greater and its genesis
hash equals the configured genesis; a mismatched genesis is discarded
regardless of difficulty, a non-greater difficulty is discarded, and
over any whole run the stored total difficulty never decreases. -/
theorem C2_mergeBestState :
    (∀ cur obs : StatusData, cur.td < obs.td → obs.genesisBlock = genesisHash →
      mergeBestState cur obs = obs) ∧
    (∀ cur obs : StatusData, obs.genesisBlock ≠ genesisHash →
      mergeBestState cur obs = cur) ∧
    (∀ cur obs : StatusData, obs.td ≤ cur.td → mergeBestState cur obs = cur) ∧
    (∀ (obsList : List StatusData) (cur : StatusData),
      cur.td ≤ (obsList.foldl mergeBestState cur).td) := by
  refine ⟨?_, ?_, ?_, ?_⟩
  · intro cur obs h1 h2
    simp [mergeBestState, h1, h2]
  · intro cur obs h
    have hc : ¬(cur.td < obs.td ∧ obs.genesisBlock = genesisHash) := by
      rintro ⟨-, h2⟩; exact h h2
    simp [mergeBestState, hc]
  · intro cur obs h
    have hc : ¬(cur.td < obs.td ∧ obs.genesisBlock = genesisHash) := by
      rintro ⟨h1, -⟩; omega
    simp [mergeBestState, hc]
  · intro obsList
    induction obsList with
    | nil => intro cur; simp
    | cons o l ih =>
      intro cur
      have step : cur.td ≤ (mergeBestState cur o).td := by
        by_cases hc : cur.td < o.td ∧ o.genesisBlock = genesisHash
        · simp only [mergeBestState, if_pos hc]; omega
        · simp only [mergeBestState, if_neg hc]; omega
      calc cur.td ≤ (mergeBestState cur o).td := step
        _ ≤ ((o :: l).foldl mergeBestState cur).td := by
            rw [List.foldl_cons]; exact ih (mergeBestState cur o)

/-- Witness for C2 at concrete observations. -/
theorem C2_mergeBestState_witness :
    mergeBestState initBestState { initBestState with td := startTD + 10 } =
      { initBestState with td := startTD + 10 } ∧
    mergeBestState initBestState
      { initBestState with td := startTD + 10, genesisBlock := 0 } = initBestState ∧
    initBestState.td ≤
      ([{ initBestState with td := startTD + 10, genesisBlock := 0 }].foldl
        mergeBestState initBestState).td :=
  ⟨C2_mergeBestState.1 _ _ (by norm_num [initBestState, startTD]) rfl,
   C2_mergeBestState.2.1 _ _ (by decide),
   C2_mergeBestState.2.2.2 _ _⟩

/-! ## Claim C3: the readStatus validation chain -/

/-- Claim C3: the handshake status validations are applied in a fixed
order with the first failure determining the error: wrong message code
gives ErrNoStatusMsg, then oversize gives ErrMsgTooLarge, then a failed
decode gives ErrDecode, then genesis mismatch, network id mismatch and
protocol version mismatch give their respective errors; a status passing
all checks gives no error. -/
theorem C3_readStatus (version network : Nat) (genesis : Hash) (msg : Msg) :
    (msg.code ≠ StatusMsg →
      readStatus version network genesis msg = some .ErrNoStatusMsg) ∧
    (msg.code = StatusMsg → ProtocolMaxMsgSize < msg.size →
      readStatus version network genesis msg = some .ErrMsgTooLarge) ∧
    (msg.code = StatusMsg → msg.size ≤ ProtocolMaxMsgSize → msg.payload = none →
      readStatus version network genesis msg = some .ErrDecode) ∧
    (∀ st : StatusData, msg.code = StatusMsg → msg.size ≤ ProtocolMaxMsgSize →
      msg.payload = some st → st.genesisBlock ≠ genesis →
      readStatus version network genesis msg = some .ErrGenesisBlockMismatch) ∧
    (∀ st : StatusData, msg.code = StatusMsg → msg.size ≤ ProtocolMaxMsgSize →
      msg.payload = some st → st.genesisBlock = genesis → st.networkId ≠ network →
      readStatus version network genesis msg = some .ErrNetworkIdMismatch) ∧
    (∀ st : StatusData, msg.code = StatusMsg → msg.size ≤ ProtocolMaxMsgSize →
      msg.payload = some st → st.genesisBlock = genesis → st.networkId = network →
      st.protocolVersion ≠ version →
      readStatus version network genesis msg = some .ErrProtocolVersionMismatch) ∧
    (∀ st : StatusData, msg.code = StatusMsg → msg.size ≤ ProtocolMaxMsgSize →
      msg.payload = some st → st.genesisBlock = genesis → st.networkId = network →
      st.protocolVersion = version →
      readStatus version network genesis msg = none) := by
  refine ⟨?_, ?_, ?_, ?_, ?_, ?_, ?_⟩
  · intro h; simp [readStatus, h]
  · intro h1 h2; simp [readStatus, h1, h2]
  · intro h1 h2 h3; simp [readStatus, h1, Nat.not_lt.2 h2, h3]
  · intro st h1 h2 h3 h4; simp [readStatus, h1, Nat.not_lt.2 h2, h3, h4]
  · intro st h1 h2 h3 h4 h5; simp [readStatus, h1, Nat.not_lt.2 h2, h3, h4, h5]
  · intro st h1 h2 h3 h4 h5 h6; simp [readStatus, h1, Nat.not_lt.2 h2, h3, h4, h5, h6]
  · intro st h1 h2 h3 h4 h5 h6; simp [readStatus, h1, Nat.not_lt.2 h2, h3, h4, h5, h6]

/-- Witness for C3 at a concrete fully valid status and at a concrete
wrong-code message. -/
theorem C3_readStatus_witness :
    readStatus 63 888888 7
      { code := 0, size := 100,
        payload := some { protocolVersion := 63, networkId := 888888, td := 4,
                          currentBlock := 9, genesisBlock := 7 } } = none ∧
    readStatus 63 888888 7 { code := 1, size := 100, payload := none } =
      some .ErrNoStatusMsg :=
  ⟨(C3_readStatus 63 888888 7 _).2.2.2.2.2.2 _ rfl (by decide) rfl rfl rfl rfl,
   (C3_readStatus 63 888888 7 _).1 (by decide)⟩

/-! ## Claim C6: Head on a freshly constructed peer -/

/-- Claim C6 counterexample: a peer freshly constructed by NewPeer, with
no handshake and no SetHead since construction, reports a total
difficulty of zero from Head, not a null difficulty: NewPeer initializes
the td field to a non-nil pointer to zero. -/
theorem C6_counterexample :
    (NewPeer 63 1).Head.2 = some 0 ∧ ((NewPeer 63 1).Head.2).isSome = true := by
  constructor <;> rfl

/-- Claim C6 amended: Head on a freshly constructed peer returns the
zero hash and the total difficulty zero (a non-null value), because
NewPeer initializes td to big.NewInt(0); Head reports a null difficulty
only when the td field itself is the nil pointer, which NewPeer never
produces. -/
theorem C6_amended :
    (∀ version id : Nat, (NewPeer version id).Head = (0, some 0)) ∧
    (∀ p : Peer, p.td = none → p.Head.2 = none) := by
  constructor
  · intro version id; rfl
  · intro p h; simp [Peer.Head, h]

/-- Witness for C6 amended: a concrete fresh peer, and a concrete peer
state whose td field is nil. -/
theorem C6_amended_witness :
    (NewPeer 62 5).Head = (0, some 0) ∧
    (Peer.Head { id := 0, version := 0, genesis := 0, head := 0, td := none,
                 knownTxs := [], knownBlocks := [] }).2 = none :=
  ⟨C6_amended.1 62 5, C6_amended.2 _ rfl⟩

/-! ## Claim C8: the header-batch merge and the uninitialized best header -/

/-- Claim C8: the header-batch merge rule is claimed to hold for every
batch including the first one after startup, but the proxy starts with a
zero-valued bestHeader whose Number is a nil big.Int pointer, so the
very first comparison h.Number.Cmp(bestHeader.Number) dereferences nil
and panics (modelled as none); with a properly initialized retained
header the same batch is merged as the claim describes. -/
theorem C8_first_batch_panics :
    mergeHeaderBatch initBestHeader [{ number := some 1 }] = none ∧
    mergeHeaderBatch { number := some 0 } [{ number := some 1 }] =
      some { number := some 1 } ∧
    mergeHeaderBatch { number := some 0 }
      [{ number := some 1 }, { number := some 5 }, { number := some 3 }] =
      some { number := some 5 } := by
  refine ⟨rfl, ?_, ?_⟩ <;> decide

/-! ## Claim C9: the request-building loop of SendNewBlockHashes -/

/-- The request-building loop yields the elementwise zip of the two
arrays as long as it has not run past the end of numbers. -/
theorem buildLoop_eq_take (hashes : List Hash) (numbers : List Nat) :
    ∀ k, k ≤ hashes.length → k ≤ numbers.length →
      buildLoop hashes numbers k = some ((hashes.zip numbers).take k) := by
  intro k
  induction k with
  | zero => intro _ _; simp [buildLoop]
  | succ k ih =>
    intro h1 h2
    have hk1 : k < hashes.length := by omega
    have hk2 : k < numbers.length := by omega
    have hz : (hashes.zip numbers)[k]? = some (hashes[k], numbers[k]) := by
      rw [List.getElem?_zip_eq_some]
      exact ⟨List.getElem?_eq_getElem hk1, List.getElem?_eq_getElem hk2⟩
    simp [buildLoop, ih (by omega) (by omega), List.getElem?_eq_getElem, hk1, hk2,
      List.take_succ, hz]

/-- The request-building loop panics once it is asked to run past the
end of numbers. -/
theorem buildLoop_none (hashes : List Hash) (numbers : List Nat) :
    ∀ k, numbers.length < k → k ≤ hashes.length → buildLoop hashes numbers k = none := by
  intro k
  induction k with
  | zero => intro h _; omega
  | succ k ih =>
    intro h1 h2
    by_cases hk : numbers.length < k
    · simp [buildLoop, ih hk (by omega)]
    · have hk2 : numbers.length = k := by omega
      have hsome := buildLoop_eq_take hashes numbers k (by omega) (by omega)
      have hnone : numbers[k]? = none := by
        rw [List.getElem?_eq_none]; omega
      simp [buildLoop, hsome, hnone]

/-- Claim C9: SendNewBlockHashes indexes numbers only below the length
of hashes; when numbers is at least as long as hashes every access is in
bounds and the emitted announcement zips the i-th hash with the i-th
number, and when numbers is shorter the operation indexes past the end
of numbers and is not total. -/
theorem C9_SendNewBlockHashes (p : Peer) (hashes : List Hash) (numbers : List Nat) :
    (hashes.length ≤ numbers.length →
      SendNewBlockHashes p hashes numbers =
        some (markBlockHashes p hashes, (NewBlockHashesMsg, hashes.zip numbers))) ∧
    (numbers.length < hashes.length → SendNewBlockHashes p hashes numbers = none) := by
  constructor
  · intro h
    have hbuild : buildRequest hashes numbers =
        some ((hashes.zip numbers).take hashes.length) :=
      buildLoop_eq_take hashes numbers hashes.length le_rfl h
    have htake : (hashes.zip numbers).take hashes.length = hashes.zip numbers := by
      apply List.take_of_length_le
      rw [List.length_zip]; omega
    rw [SendNewBlockHashes, hbuild, htake]
    rfl
  · intro h
    have hbuild : buildRequest hashes numbers = none :=
      buildLoop_none hashes numbers hashes.length h le_rfl
    rw [SendNewBlockHashes, hbuild]
    rfl

/-- Witness for C9 at concrete arrays: numbers longer than hashes zips
in bounds; numbers shorter than hashes is a panic. -/
theorem C9_SendNewBlockHashes_witness :
    SendNewBlockHashes (NewPeer 63 1) [10, 20] [5, 6, 7] =
      some (markBlockHashes (NewPeer 63 1) [10, 20],
        (NewBlockHashesMsg, [(10, 5), (20, 6)])) ∧
    SendNewBlockHashes (NewPeer 63 1) [10, 20, 30] [5, 6] = none :=
  ⟨(C9_SendNewBlockHashes (NewPeer 63 1) [10, 20] [5, 6, 7]).1 (by decide),
   (C9_SendNewBlockHashes (NewPeer 63 1) [10, 20, 30] [5, 6]).2 (by decide)⟩

/-! ## Claim C10: the closed flag is never set -/

/-- No exported operation assigns the closed flag. -/
theorem applySetOp_closed (ps : PeerSet) (op : SetOp) :
    (applySetOp ps op).closed = ps.closed := by
  cases op with
  | register p =>
    simp only [applySetOp, PeerSet.Register]
    split
    · rfl
    · split <;> rfl
  | unregister id =>
    simp only [applySetOp, PeerSet.Unregister]
    split <;> rfl
  | _ => rfl

/-- Claim C10: every PeerSet state reachable from NewPeerSet through the
exported operations has closed = false, so the closed-set error branch
of Register is unreachable: Register either succeeds or reports a
duplicate, never errClosed. -/
theorem C10_closed_unreachable (ops : List SetOp) :
    (applySetOps NewPeerSet ops).closed = false ∧
    ∀ p : Peer, ((applySetOps NewPeerSet ops).Register p).1 = none ∨
      ((applySetOps NewPeerSet ops).Register p).1 = some RegError.errAlreadyRegistered := by
  have hclosed : ∀ (l : List SetOp) (ps : PeerSet),
      (applySetOps ps l).closed = ps.closed := by
    intro l
    induction l with
    | nil => intro ps; rfl
    | cons op l ih =>
      intro ps
      rw [applySetOps, List.foldl_cons, ← applySetOps, ih, applySetOp_closed]
  have h0 : (applySetOps NewPeerSet ops).closed = false := hclosed ops NewPeerSet
  refine ⟨h0, ?_⟩
  intro p
  simp only [PeerSet.Register, h0]
  split
  · simp at *
  · split
    · right; rfl
    · left; rfl

/-! ## Claim C4: the handshake assigns head and difficulty only on success -/

/-- A status accepted by readStatus was decoded, and its genesis matches
the local genesis. -/
theorem readStatus_none_inv {version network : Nat} {genesis : Hash} {msg : Msg}
    (h : readStatus version network genesis msg = none) :
    ∃ st : StatusData, msg.payload = some st ∧ st.genesisBlock = genesis := by
  by_cases h1 : msg.code ≠ StatusMsg
  · simp [readStatus, h1] at h
  · by_cases h2 : ProtocolMaxMsgSize < msg.size
    · simp [readStatus, h1, h2] at h
    · match hp : msg.payload with
      | none => simp [readStatus, h1, h2, hp] at h
      | some st =>
        refine ⟨st, rfl, ?_⟩
        by_contra hg
        simp [readStatus, h1, h2, hp, hg] at h

/-- Claim C4: Handshake assigns the recorded head and total difficulty
from the received status exactly when it returns success; on any error,
including a genesis mismatch reported by status validation, the peer
state is left unchanged. -/
theorem C4_Handshake (p : Peer) (network : Nat) (td : Int) (head : Hash)
    (genesis : Hash) (inp : HsInput) :
    ((Handshake p network td head genesis inp).1 = none →
      ∃ (msg : Msg) (st : StatusData), inp.read = some msg ∧ msg.payload = some st ∧
        (Handshake p network td head genesis inp).2 =
          { p with td := some st.td, head := st.currentBlock }) ∧
    (∀ e : HsError, (Handshake p network td head genesis inp).1 = some e →
      (Handshake p network td head genesis inp).2 = p) ∧
    (∀ (msg : Msg) (st : StatusData), inp.read = some msg → msg.payload = some st →
      st.genesisBlock ≠ genesis →
      (Handshake p network td head genesis inp).1 ≠ none ∧
      (Handshake p network td head genesis inp).2 = p) := by
  rcases inp with ⟨sendOk, timedOut, read⟩
  cases timedOut with
  | true => simp [Handshake]
  | false =>
    cases sendOk with
    | false => simp [Handshake]
    | true =>
      cases read with
      | none => simp [Handshake]
      | some msg =>
        match hrs : readStatus p.version network genesis msg with
        | some e => simp [Handshake, hrs]
        | none =>
          obtain ⟨st, hp, hg⟩ := readStatus_none_inv hrs
          refine ⟨?_, ?_, ?_⟩
          · intro _
            exact ⟨msg, st, rfl, hp, by simp [Handshake, hrs, hp]⟩
          · intro e he
            simp [Handshake, hrs, hp] at he
          · intro msg2 st2 hread hp2 hg2
            have hmsg : msg = msg2 := by injection hread
            subst hmsg
            rw [hp] at hp2
            have hst : st = st2 := by injection hp2
            subst hst
            exact absurd hg hg2

/-- Witness for C4: a concrete successful handshake assigns head and
difficulty from the received status, and a concrete genesis-mismatching
status leaves the peer unchanged and errors. -/
theorem C4_Handshake_witness :
    (Handshake (NewPeer 63 1) 888888 4 9 7
        { sendOk := true, timedOut := false,
          read := some { code := 0, size := 100,
                         payload := some { protocolVersion := 63, networkId := 888888,
                                           td := 42, currentBlock := 11,
                                           genesisBlock := 7 } } }).2 =
      { (NewPeer 63 1) with td := some 42, head := 11 } ∧
    (Handshake (NewPeer 63 1) 888888 4 9 7
        { sendOk := true, timedOut := false,
          read := some { code := 0, size := 100,
                         payload := some { protocolVersion := 63, networkId := 888888,
                                           td := 42, currentBlock := 11,
                                           genesisBlock := 8 } } }).1 ≠ none := by
  constructor
  · obtain ⟨msg, st, hread, hp, h2⟩ :=
      (C4_Handshake (NewPeer 63 1) 888888 4 9 7
        { sendOk := true, timedOut := false,
          read := some { code := 0, size := 100,
                         payload := some { protocolVersion := 63, networkId := 888888,
                                           td := 42, currentBlock := 11,
                                           genesisBlock := 7 } } }).1 (by decide)
    have hm : ({ code := 0, size := 100,
                 payload := some { protocolVersion := 63, networkId := 888888,
                                   td := 42, currentBlock := 11,
                                   genesisBlock := 7 } } : Msg) = msg := by
      injection hread
    subst hm
    have hst : (some { protocolVersion := 63, networkId := 888888, td := 42,
                       currentBlock := 11, genesisBlock := 7 } : Option StatusData) =
        some st := hp
    have hst2 : ({ protocolVersion := 63, networkId := 888888, td := 42,
                   currentBlock := 11, genesisBlock := 7 } : StatusData) = st := by
      injection hst
    subst hst2
    exact h2
  · exact ((C4_Handshake (NewPeer 63 1) 888888 4 9 7 _).2.2 _ _ rfl rfl (by decide)).1

/-! ## Claim C7: Register and Unregister semantics -/

/-- Looking up an identity after every entry with that identity has been
filtered out finds nothing. -/
theorem lookup_filter_ne (l : List (Nat × Peer)) (id : Nat) :
    (l.filter (fun e => e.1 != id)).lookup id = none := by
  induction l with
  | nil => rfl
  | cons e l ih =>
    by_cases he : e.1 = id
    · simp only [List.filter_cons]
      have : (e.1 != id) = false := by simp [he]
      rw [this]
      exact ih
    · simp only [List.filter_cons]
      have : (e.1 != id) = true := by simp [he]
      rw [this]
      simp only [List.lookup]
      have : (id == e.1) = false := by simp [Ne.symm he]
      rw [this]
      exact ih

/-- Unregister always leaves no entry under the identity it was asked
to remove. -/
theorem unregister_lookup_none (ps : PeerSet) (id : Nat) :
    ((ps.Unregister id).2).PeerById id = none := by
  unfold PeerSet.Unregister PeerSet.PeerById
  by_cases h : (ps.peers.lookup id).isSome
  · simp only [h, if_true]
    exact lookup_filter_ne ps.peers id
  · simp only [h, Bool.false_eq_true, if_false]
    exact Option.not_isSome_iff_eq_none.mp h

/-- Claim C7: Register fails with the closed error on a closed set and
with the already-registered error on a duplicate identity, otherwise
inserts; Unregister fails with the not-registered error on an absent
identity, otherwise removes the entry; after Register then Unregister of
the same identity the lookup returns null; and every failing Register or
Unregister leaves the set contents unchanged. -/
theorem C7_registry :
    (∀ (ps : PeerSet) (p : Peer), ps.closed = true →
      ps.Register p = (some RegError.errClosed, ps)) ∧
    (∀ (ps : PeerSet) (p : Peer), ps.closed = false →
      (ps.peers.lookup p.id).isSome →
      ps.Register p = (some RegError.errAlreadyRegistered, ps)) ∧
    (∀ (ps : PeerSet) (p : Peer), ps.closed = false → ps.peers.lookup p.id = none →
      ps.Register p = (none, { ps with peers := ps.peers ++ [(p.id, p)] })) ∧
    (∀ (ps : PeerSet) (id : Nat), ps.peers.lookup id = none →
      ps.Unregister id = (some RegError.errNotRegistered, ps)) ∧
    (∀ (ps : PeerSet) (id : Nat), (ps.peers.lookup id).isSome →
      (ps.Unregister id).1 = none ∧
      (ps.Unregister id).2 =
        { ps with peers := ps.peers.filter (fun e => e.1 != id) }) ∧
    (∀ (ps : PeerSet) (p : Peer), (((ps.Register p).2.Unregister p.id).2).PeerById p.id = none) ∧
    (∀ (ps : PeerSet) (p : Peer) (e : RegError), (ps.Register p).1 = some e →
      (ps.Register p).2 = ps) ∧
    (∀ (ps : PeerSet) (id : Nat) (e : RegError), (ps.Unregister id).1 = some e →
      (ps.Unregister id).2 = ps) := by
  refine ⟨?_, ?_, ?_, ?_, ?_, ?_, ?_, ?_⟩
  · intro ps p h; simp [PeerSet.Register, h]
  · intro ps p h1 h2; simp [PeerSet.Register, h1, h2]
  · intro ps p h1 h2; simp [PeerSet.Register, h1, h2]
  · intro ps id h; simp [PeerSet.Unregister, h]
  · intro ps id h; simp [PeerSet.Unregister, h]
  · intro ps p; exact unregister_lookup_none (ps.Register p).2 p.id
  · intro ps p e h
    unfold PeerSet.Register at h ⊢
    split at h
    · split
      · rfl
      · simp_all
    · split at h
      · split
        · rfl
        · simp_all
      · simp at h
  · intro ps id e h
    unfold PeerSet.Unregister at h ⊢
    split at h
    · simp at h
    · split
      · simp_all
      · rfl

/-- Witness for C7 at a concrete registry: a fresh set registers a peer,
re-registering the same identity fails with the duplicate error, and
register followed by unregister leaves the identity unresolvable. -/
theorem C7_registry_witness :
    NewPeerSet.Register (NewPeer 63 1) =
      (none, { NewPeerSet with peers := [(1, NewPeer 63 1)] }) ∧
    PeerSet.Register { NewPeerSet with peers := [(1, NewPeer 63 1)] } (NewPeer 63 1) =
      (some RegError.errAlreadyRegistered,
       { NewPeerSet with peers := [(1, NewPeer 63 1)] }) ∧
    (((NewPeerSet.Register (NewPeer 63 1)).2.Unregister 1).2).PeerById 1 = none := by
  refine ⟨?_, ?_, ?_⟩
  · exact C7_registry.2.2.1 NewPeerSet (NewPeer 63 1) rfl rfl
  · exact C7_registry.2.1 _ (NewPeer 63 1) rfl (by decide)
  · have h := C7_registry.2.2.2.2.2.1 NewPeerSet (NewPeer 63 1)
    simpa using h

/-! ## Claim C1: bounds of the known-hash caches -/

/-- Size of a set after the eviction loop: unchanged when below the
capacity, otherwise popped down to one below the capacity. -/
theorem evictLoop_length (cap : Nat) (hcap : 1 ≤ cap) :
    ∀ (fuel : Nat) (s : List Hash), s.length ≤ fuel →
      (evictLoop cap fuel s).length =
        if cap ≤ s.length then cap - 1 else s.length := by
  intro fuel
  induction fuel with
  | zero =>
    intro s hs
    have h0 : s.length = 0 := by omega
    rw [evictLoop, if_neg (by omega)]
  | succ fuel ih =>
    intro s hs
    by_cases h : cap ≤ s.length
    · rw [evictLoop, if_pos h, if_pos h]
      have htl : s.tail.length = s.length - 1 := by
        cases s with
        | nil => simp at h; omega
        | cons a t => simp
      rw [ih s.tail (by omega)]
      by_cases h2 : cap ≤ s.tail.length
      · rw [if_pos h2]
      · rw [if_neg h2]; omega
    · rw [evictLoop, if_neg h, if_neg h]

/-- Size of a set after the complete eviction loop of the Mark
operations. -/
theorem evictWhile_length (cap : Nat) (hcap : 1 ≤ cap) (s : List Hash) :
    (evictWhile cap s).length = if cap ≤ s.length then cap - 1 else s.length :=
  evictLoop_length cap hcap s.length s le_rfl

/-- Adding one item grows a set by at most one. -/
theorem SetAdd_length_le (s : List Hash) (h : Hash) :
    (SetAdd s h).length ≤ s.length + 1 := by
  unfold SetAdd
  split
  · omega
  · simp

/-- MarkBlock leaves the block cache at or below its capacity whatever
the size it starts from, and never touches the transaction cache. -/
theorem MarkBlock_bound (p : Peer) (h : Hash) :
    (MarkBlock p h).knownBlocks.length ≤ maxKnownBlocks ∧
    (MarkBlock p h).knownTxs = p.knownTxs := by
  refine ⟨?_, rfl⟩
  have he := evictWhile_length maxKnownBlocks (by norm_num [maxKnownBlocks]) p.knownBlocks
  have ha := SetAdd_length_le (evictWhile maxKnownBlocks p.knownBlocks) h
  show (SetAdd (evictWhile maxKnownBlocks p.knownBlocks) h).length ≤ maxKnownBlocks
  by_cases hc : maxKnownBlocks ≤ p.knownBlocks.length
  · rw [if_pos hc] at he
    rw [he] at ha
    have : 1 ≤ maxKnownBlocks := by norm_num [maxKnownBlocks]
    omega
  · rw [if_neg hc] at he
    rw [he] at ha
    omega

/-- MarkTransaction leaves the transaction cache at or below its
capacity whatever the size it starts from, and never touches the block
cache. -/
theorem MarkTransaction_bound (p : Peer) (h : Hash) :
    (MarkTransaction p h).knownTxs.length ≤ maxKnownTxs ∧
    (MarkTransaction p h).knownBlocks = p.knownBlocks := by
  refine ⟨?_, rfl⟩
  have he := evictWhile_length maxKnownTxs (by norm_num [maxKnownTxs]) p.knownTxs
  have ha := SetAdd_length_le (evictWhile maxKnownTxs p.knownTxs) h
  show (SetAdd (evictWhile maxKnownTxs p.knownTxs) h).length ≤ maxKnownTxs
  by_cases hc : maxKnownTxs ≤ p.knownTxs.length
  · rw [if_pos hc] at he
    rw [he] at ha
    have : 1 ≤ maxKnownTxs := by norm_num [maxKnownTxs]
    omega
  · rw [if_neg hc] at he
    rw [he] at ha
    omega

/-- Folding single-item adds of pairwise distinct items, none of which
is already a member, grows a set by exactly the number of items. -/
theorem foldl_SetAdd_length (l : List Hash) :
    ∀ s : List Hash, l.Nodup → (∀ a ∈ l, a ∉ s) →
      (l.foldl SetAdd s).length = s.length + l.length := by
  induction l with
  | nil => intro s _ _; simp
  | cons a l ih =>
    intro s hnd hdisj
    have ha : a ∉ s := hdisj a (by simp)
    rw [List.foldl_cons]
    have hadd : SetAdd s a = a :: s := by simp [SetAdd, ha]
    rw [hadd, ih (a :: s) hnd.of_cons ?_]
    · simp; omega
    · intro b hb
      simp only [List.mem_cons]
      push_neg
      refine ⟨?_, hdisj b (by simp [hb])⟩
      intro hba
      subst hba
      exact (List.nodup_cons.mp hnd).1 hb

/-- A sequence of SendNewBlock operations folds plain adds over the
block cache. -/
theorem applyPeerOps_sendNewBlock (l : List Hash) :
    ∀ p : Peer, applyPeerOps p (l.map (fun h => PeerOp.sendNewBlock h 0)) =
      { p with knownBlocks := l.foldl SetAdd p.knownBlocks } := by
  induction l with
  | nil => intro p; simp [applyPeerOps]
  | cons a l ih =>
    intro p
    simp only [List.map_cons, applyPeerOps, List.foldl_cons]
    rw [← applyPeerOps, ih]
    rfl

/-- Folding adds of the range of n over the empty set yields exactly n
members. -/
theorem range_foldl_SetAdd_length (n : Nat) :
    ((List.range n).foldl SetAdd ([] : List Hash)).length = n := by
  have h := foldl_SetAdd_length (List.range n) ([] : List Hash)
    (List.nodup_range n) (by intro a _; simp)
  simpa using h

/-- The block-cache size after n SendNewBlock operations with the
distinct hashes 0..n-1 on a fresh peer is exactly n. -/
theorem applyPeerOps_range_blocks (version id n : Nat) :
    SetSize (applyPeerOps (NewPeer version id)
      ((List.range n).map (fun h => PeerOp.sendNewBlock h 0))).knownBlocks = n := by
  rw [applyPeerOps_sendNewBlock]
  show ((List.range n).foldl SetAdd ([] : List Hash)).length = n
  exact range_foldl_SetAdd_length n

/-- Claim C1 counterexample: the claimed capacity invariant over all
sequences of cache-recording operations fails, because SendNewBlock
(likewise SendTransactions and SendNewBlockHashes) inserts with no
eviction: the concrete sequence of 1025 SendNewBlock calls with the
distinct hashes 0..1024 on a fresh peer leaves the block cache at size
1025, strictly above maxKnownBlocks = 1024. -/
theorem C1_counterexample :
    SetSize (applyPeerOps (NewPeer 63 1)
      ((List.range 1025).map (fun h => PeerOp.sendNewBlock h 0))).knownBlocks = 1025 ∧
    maxKnownBlocks < 1025 :=
  ⟨applyPeerOps_range_blocks 63 1 1025, by norm_num [maxKnownBlocks]⟩

/-- Claim C1 amended: the capacity bounds hold for every sequence of
MarkBlock and MarkTransaction operations — those run the eviction loop,
which at or above capacity pops members down to one below capacity
before the new hash is added — while the Send operations
(SendTransactions, SendNewBlockHashes, SendNewBlock) insert into the
caches with no eviction and can grow them past the capacities. -/
theorem C1_amended :
    (∀ (version id : Nat) (ops : List PeerOp), (∀ op ∈ ops, isMarkOp op = true) →
      SetSize (applyPeerOps (NewPeer version id) ops).knownBlocks ≤ maxKnownBlocks ∧
      SetSize (applyPeerOps (NewPeer version id) ops).knownTxs ≤ maxKnownTxs) ∧
    (∀ s : List Hash, maxKnownBlocks ≤ SetSize s →
      SetSize (evictWhile maxKnownBlocks s) = maxKnownBlocks - 1) ∧
    (∀ s : List Hash, maxKnownTxs ≤ SetSize s →
      SetSize (evictWhile maxKnownTxs s) = maxKnownTxs - 1) := by
  refine ⟨?_, ?_, ?_⟩
  · have main : ∀ (ops : List PeerOp) (p : Peer), (∀ op ∈ ops, isMarkOp op = true) →
        p.knownBlocks.length ≤ maxKnownBlocks → p.knownTxs.length ≤ maxKnownTxs →
        (applyPeerOps p ops).knownBlocks.length ≤ maxKnownBlocks ∧
        (applyPeerOps p ops).knownTxs.length ≤ maxKnownTxs := by
      intro ops
      induction ops with
      | nil => intro p _ h1 h2; exact ⟨h1, h2⟩
      | cons op l ih =>
        intro p hmark h1 h2
        have hop := hmark op (by simp)
        rw [applyPeerOps, List.foldl_cons, ← applyPeerOps]
        match op with
        | .markBlock h =>
          exact ih (MarkBlock p h) (fun o ho => hmark o (by simp [ho]))
            (MarkBlock_bound p h).1 (by rw [(MarkBlock_bound p h).2]; exact h2)
        | .markTransaction h =>
          exact ih (MarkTransaction p h) (fun o ho => hmark o (by simp [ho]))
            (by rw [(MarkTransaction_bound p h).2]; exact h1)
            (MarkTransaction_bound p h).1
        | .sendTransactions txs => simp [isMarkOp] at hop
        | .sendNewBlockHashes hs ns => simp [isMarkOp] at hop
        | .sendNewBlock h td => simp [isMarkOp] at hop
    intro version id ops hmark
    exact main ops (NewPeer version id) hmark (by simp [NewPeer]) (by simp [NewPeer])
  · intro s hs
    have he := evictWhile_length maxKnownBlocks (by norm_num [maxKnownBlocks]) s
    simp only [SetSize] at hs ⊢
    rw [if_pos hs] at he
    exact he
  · intro s hs
    have he := evictWhile_length maxKnownTxs (by norm_num [maxKnownTxs]) s
    simp only [SetSize] at hs ⊢
    rw [if_pos hs] at he
    exact he

/-- Witness for C1 amended at a concrete sequence of Mark operations
and a concrete at-capacity set. -/
theorem C1_amended_witness :
    SetSize (applyPeerOps (NewPeer 63 1)
      [PeerOp.markBlock 5, PeerOp.markTransaction 6]).knownBlocks ≤ maxKnownBlocks ∧
    SetSize (evictWhile maxKnownBlocks (List.range maxKnownBlocks)) =
      maxKnownBlocks - 1 :=
  ⟨(C1_amended.1 63 1 [PeerOp.markBlock 5, PeerOp.markTransaction 6] (by decide)).1,
   C1_amended.2.1 (List.range maxKnownBlocks) (by simp [SetSize])⟩

/-! ## Claim C5: BestPeer -/

/-- Structural-recursion companion of the BestPeer scan: the first-seen
maximum of a peer list, where a later peer displaces an earlier one only
with a strictly greater difficulty. -/
def bestRec : List Peer → Option Peer
  | [] => none
  | p :: rest =>
    match p.td with
    | none => bestRec rest
    | some t =>
      match bestRec rest with
      | none => some p
      | some c =>
        match c.td with
        | none => some p
        | some w => if t < w then some c else some p

/-- Combining an accumulated best peer with the best of the remaining
peers, as the scan does: the remainder wins only with a strictly greater
difficulty. -/
def mergeBestPair (b : Peer) (t : Int) : Option Peer → Option Peer × Option Int
  | none => (some b, some t)
  | some c =>
    match c.td with
    | none => (some b, some t)
    | some w => if t < w then (some c, some w) else (some b, some t)

/-- A peer produced by the scan is a member of the list and carries a
non-null difficulty. -/
theorem bestRec_mem_td :
    ∀ (l : List Peer) (c : Peer), bestRec l = some c →
      c ∈ l ∧ ∃ w : Int, c.td = some w := by
  intro l
  induction l with
  | nil => intro c hc; simp [bestRec] at hc
  | cons p rest ih =>
    intro c hc
    match hp : p.td with
    | none =>
      rw [bestRec] at hc
      simp only [hp] at hc
      obtain ⟨hm, hw⟩ := ih c hc
      exact ⟨by simp [hm], hw⟩
    | some t =>
      rw [bestRec] at hc
      simp only [hp] at hc
      match hr : bestRec rest with
      | none =>
        simp only [hr] at hc
        have hcp : p = c := by injection hc
        subst hcp
        exact ⟨by simp, t, hp⟩
      | some c0 =>
        obtain ⟨hm0, w0, hw0⟩ := ih c0 hr
        simp only [hr, hw0] at hc
        by_cases htw : t < w0
        · rw [if_pos htw] at hc
          have hcc : c0 = c := by injection hc
          subst hcc
          exact ⟨by simp [hm0], w0, hw0⟩
        · rw [if_neg htw] at hc
          have hcp : p = c := by injection hc
          subst hcp
          exact ⟨by simp, t, hp⟩

/-- The scan loop started from an already-chosen best peer computes the
merge of that peer with the first-seen maximum of the rest. -/
theorem foldl_bestStep_some :
    ∀ (l : List Peer) (b : Peer) (t : Int),
      l.foldl bestStep (some b, some t) = mergeBestPair b t (bestRec l) := by
  intro l
  induction l with
  | nil => intro b t; rfl
  | cons p rest ih =>
    intro b t
    rw [List.foldl_cons]
    match hp : p.td with
    | none =>
      have hstep : bestStep (some b, some t) p = (some b, some t) := by
        simp [bestStep, Peer.Head, hp]
      rw [hstep, ih, bestRec]
      simp only [hp]
    | some u =>
      by_cases htu : t < u
      · have hstep : bestStep (some b, some t) p = (some p, some u) := by
          simp [bestStep, Peer.Head, hp, htu]
        rw [hstep, ih, bestRec]
        simp only [hp]
        match hr : bestRec rest with
        | none => simp [hr, mergeBestPair, hp, htu]
        | some c =>
          obtain ⟨-, w, hw⟩ := bestRec_mem_td rest c hr
          simp only [hr, hw]
          by_cases huw : u < w
          · rw [if_pos huw]
            have htw : t < w := lt_trans htu huw
            simp [mergeBestPair, hw, huw, htw]
          · rw [if_neg huw]
            simp [mergeBestPair, hw, huw, hp, htu]
      · have hstep : bestStep (some b, some t) p = (some b, some t) := by
          simp [bestStep, Peer.Head, hp, htu]
        rw [hstep, ih, bestRec]
        simp only [hp]
        match hr : bestRec rest with
        | none => simp [hr, mergeBestPair, hp, htu]
        | some c =>
          obtain ⟨-, w, hw⟩ := bestRec_mem_td rest c hr
          simp only [hr, hw]
          by_cases huw : u < w
          · rw [if_pos huw]
          · rw [if_neg huw]
            have htw : ¬ t < w := by omega
            simp [mergeBestPair, hp, hw, htu, htw]

/-- The scan loop from the empty accumulator computes the first-seen
maximum. -/
theorem foldl_bestStep_none :
    ∀ l : List Peer, (l.foldl bestStep (none, none)).1 = bestRec l := by
  intro l
  induction l with
  | nil => rfl
  | cons p rest ih =>
    rw [List.foldl_cons]
    match hp : p.td with
    | none =>
      have hstep : bestStep (none, none) p = (none, none) := by
        simp [bestStep, Peer.Head, hp]
      rw [hstep, ih, bestRec]
      simp only [hp]
    | some u =>
      have hstep : bestStep (none, none) p = (some p, some u) := by
        simp [bestStep, Peer.Head, hp]
      rw [hstep, foldl_bestStep_some, bestRec]
      simp only [hp]
      match hr : bestRec rest with
      | none => simp [hr, mergeBestPair]
      | some c =>
        obtain ⟨-, w, hw⟩ := bestRec_mem_td rest c hr
        simp only [hr, hw]
        by_cases huw : u < w
        · rw [if_pos huw]; simp [mergeBestPair, hw, huw]
        · rw [if_neg huw]; simp [mergeBestPair, hw, huw]

/-- The scan yields nothing exactly when every peer carries a null
difficulty. -/
theorem bestRec_none_iff :
    ∀ l : List Peer, bestRec l = none ↔ ∀ p ∈ l, p.td = none := by
  intro l
  induction l with
  | nil => simp [bestRec]
  | cons p rest ih =>
    match hp : p.td with
    | none =>
      rw [bestRec]
      simp only [hp]
      rw [ih]
      constructor
      · intro h q hq
        rcases List.mem_cons.mp hq with hqp | hqr
        · subst hqp; exact hp
        · exact h q hqr
      · intro h q hq; exact h q (by simp [hq])
    | some t =>
      rw [bestRec]
      simp only [hp]
      constructor
      · intro h
        exfalso
        match hr : bestRec rest with
        | none =>
          rw [hr] at h
          exact Option.noConfusion h
        | some c =>
          obtain ⟨-, w, hw⟩ := bestRec_mem_td rest c hr
          simp only [hr, hw] at h
          by_cases htw : t < w
          · rw [if_pos htw] at h; simp at h
          · rw [if_neg htw] at h; simp at h
      · intro h
        exfalso
        have hn := h p (by simp)
        rw [hp] at hn
        simp at hn

/-- The peer the scan yields splits the list into a strictly smaller
prefix, itself, and a no-greater suffix: it attains the maximum and is
the first to do so. -/
theorem bestRec_first_max :
    ∀ (l : List Peer) (c : Peer), bestRec l = some c →
      ∃ (t : Int) (l₁ l₂ : List Peer), c.td = some t ∧ l = l₁ ++ c :: l₂ ∧
        (∀ q ∈ l₁, ∀ u : Int, q.td = some u → u < t) ∧
        (∀ q ∈ l₂, ∀ u : Int, q.td = some u → u ≤ t) := by
  intro l
  induction l with
  | nil => intro c hc; simp [bestRec] at hc
  | cons p rest ih =>
    intro c hc
    match hp : p.td with
    | none =>
      rw [bestRec] at hc
      simp only [hp] at hc
      obtain ⟨t, l₁, l₂, h1, h2, h3, h4⟩ := ih c hc
      refine ⟨t, p :: l₁, l₂, h1, by simp [h2], ?_, h4⟩
      intro q hq u hu
      rcases List.mem_cons.mp hq with hqp | hql
      · subst hqp; rw [hp] at hu; simp at hu
      · exact h3 q hql u hu
    | some u =>
      rw [bestRec] at hc
      simp only [hp] at hc
      match hr : bestRec rest with
      | none =>
        simp only [hr] at hc
        have hcp : p = c := by injection hc
        subst hcp
        refine ⟨u, [], rest, hp, by simp, by simp, ?_⟩
        intro q hq v hv
        have hall := (bestRec_none_iff rest).mp hr q hq
        rw [hall] at hv
        simp at hv
      | some c0 =>
        obtain ⟨hm0, w, hw⟩ := bestRec_mem_td rest c0 hr
        simp only [hr, hw] at hc
        obtain ⟨t0, l₁, l₂, h1, h2, h3, h4⟩ := ih c0 hr
        have hwt : w = t0 := by
          rw [h1] at hw
          exact (Option.some.inj hw).symm
        subst hwt
        by_cases huw : u < w
        · rw [if_pos huw] at hc
          have hcc : c0 = c := by injection hc
          subst hcc
          refine ⟨w, p :: l₁, l₂, h1, by simp [h2], ?_, h4⟩
          intro q hq v hv
          rcases List.mem_cons.mp hq with hqp | hql
          · subst hqp
            rw [hp] at hv
            have hvu : u = v := by injection hv
            omega
          · exact h3 q hql v hv
        · rw [if_neg huw] at hc
          have hcp : p = c := by injection hc
          subst hcp
          refine ⟨u, [], rest, hp, by simp, by simp, ?_⟩
          intro q hq v hv
          rw [h2] at hq
          rcases List.mem_append.mp hq with hql | hqr
          · have := h3 q hql v hv
            omega
          · rcases List.mem_cons.mp hqr with hqc | hql₂
            · subst hqc
              rw [hw] at hv
              have hvw : w = v := by injection hv
              omega
            · have := h4 q hql₂ v hv
              omega

/-- Claim C5: BestPeer yields nothing exactly when the set is empty or
every registered peer reports a null difficulty through Head; otherwise
it yields a registered peer with a non-null difficulty that is at least
every other non-null difficulty, and among peers tying at that maximum
the first one the scan sees is kept: every peer before it in scan order
has a strictly smaller or null difficulty. -/
theorem C5_BestPeer (ps : PeerSet) :
    (ps.BestPeer = none ↔ ∀ pr ∈ ps.peers, (Peer.Head pr.2).2 = none) ∧
    (∀ p : Peer, ps.BestPeer = some p →
      ∃ (t : Int) (l₁ l₂ : List Peer), (Peer.Head p).2 = some t ∧
        ps.peers.map Prod.snd = l₁ ++ p :: l₂ ∧
        (∀ q ∈ l₁, ∀ u : Int, (Peer.Head q).2 = some u → u < t) ∧
        (∀ q ∈ l₂, ∀ u : Int, (Peer.Head q).2 = some u → u ≤ t)) := by
  have hb : ps.BestPeer = bestRec (ps.peers.map Prod.snd) :=
    foldl_bestStep_none (ps.peers.map Prod.snd)
  constructor
  · rw [hb, bestRec_none_iff]
    constructor
    · intro h pr hpr
      exact h pr.2 (List.mem_map_of_mem Prod.snd hpr)
    · intro h q hq
      obtain ⟨pr, hpr, hq2⟩ := List.mem_map.mp hq
      subst hq2
      exact h pr hpr
  · intro p hp
    rw [hb] at hp
    exact bestRec_first_max (ps.peers.map Prod.snd) p hp

/-- The BestPeer test vector of the design document: difficulties 5, 9
and 3, and one peer with no recorded difficulty. -/
def samplePeerSet : PeerSet :=
  { peers := [(1, { (NewPeer 63 1) with td := some 5 }),
              (2, { (NewPeer 63 2) with td := some 9 }),
              (3, { (NewPeer 63 3) with td := some 3 }),
              (4, { (NewPeer 63 4) with td := none })],
    closed := false }

/-- Witness for C5: on the sample set, BestPeer picks the difficulty-9
peer, and the split guaranteed by the claim exists for it. -/
theorem C5_BestPeer_witness :
    samplePeerSet.BestPeer = some { (NewPeer 63 2) with td := some 9 } ∧
    ∃ (t : Int) (l₁ l₂ : List Peer),
      (Peer.Head { (NewPeer 63 2) with td := some 9 }).2 = some t ∧
      samplePeerSet.peers.map Prod.snd =
        l₁ ++ { (NewPeer 63 2) with td := some 9 } :: l₂ ∧
      (∀ q ∈ l₁, ∀ u : Int, (Peer.Head q).2 = some u → u < t) ∧
      (∀ q ∈ l₂, ∀ u : Int, (Peer.Head q).2 = some u → u ≤ t) :=
  ⟨by decide, (C5_BestPeer samplePeerSet).2 _ (by decide)⟩

end P2P
